import Mathlib

/-!
Shallow embedding of the `sand` countdown-timer daemon's timer registry and
scheduler operations (src/sand/timers.rs, src/sand/timer.rs,
src/sand/message.rs, src/daemon/ctx.rs).

Conventions of the embedding (Rust time types become plain Lean numeric
types; synonyms are avoided on purpose so arithmetic automation sees the
bare types):
- Rust `std::time::Duration` (nonnegative, nanoseconds) is `Nat`.
- Rust `std::time::Instant` (an opaque monotonic-clock point) is `Int`,
  nanoseconds from an arbitrary origin, so that subtracting a duration from
  an instant (as `awaken` does) is total. Rust instant-minus-instant
  (`Instant::duration_since`) returns a duration and saturates to zero when
  the right operand is later (Rust semantics since 1.60); this is
  `instantSub`.
- Rust `std::time::SystemTime` (wall clock) is `Nat`, nanoseconds since the
  epoch.
- `TimerId` (`pub struct TimerId(pub u64)` in src/sand/timer.rs) is `Nat`:
  ids allocated by the daemon start at 1 and stay far below 2^64.
- The registry `Timers(DashMap<TimerId, Timer>)` is an association list
  `List (Nat × Timer)`. The list order models the DashMap's unspecified
  iteration order; in reachable daemon states the keys are distinct, which is
  taken as a `Nodup` hypothesis where a proof needs it.
- Rust functions that internally sample `Instant::now()` /
  `SystemTime::now()` (`next_due_running`, `awaken`, `handle_asleep_state`)
  take the sampled time as an explicit argument here.
- Fallible lookups return `Option`; response enums are embedded verbatim from
  src/sand/message.rs.
-/

namespace Sand

/-- Rust instant-minus-instant (`Instant::duration_since`): the duration
between two instants, saturating to zero when the subtrahend is later
(Rust semantics since 1.60: no panic, returns `Duration::ZERO`). -/
def instantSub (a b : Int) : Nat := (a - b).toNat

/-- Rust `Duration::as_millis` (u128) followed by the `as u64` cast used in
`DaemonCtx::again`: whole milliseconds, truncated to 64 bits. -/
def asMillis (d : Nat) : Nat := (d / 1000000) % (2 ^ 64)

/-- src/sand/timer.rs: `pub struct RunningTimer { pub due: Instant }`. -/
structure RunningTimer where
  due : Int
deriving Repr, DecidableEq

/-- src/sand/timer.rs: `pub struct PausedTimer { pub remaining: Duration }`. -/
structure PausedTimer where
  remaining : Nat
deriving Repr, DecidableEq

/-- The timer state enum matched on throughout src/sand/timers.rs,
src/sand/message.rs and src/daemon/ctx.rs:
`TimerState::{Running(RunningTimer), Paused(PausedTimer), Elapsed}`. -/
inductive TimerState where
  | Running (r : RunningTimer)
  | Paused (p : PausedTimer)
  | Elapsed
deriving Repr, DecidableEq

/-- The timer record used by src/sand/timers.rs (`timer.state`,
`timer.initial_duration`) and src/daemon/ctx.rs. -/
structure Timer where
  state : TimerState
  initial_duration : Nat
deriving Repr, DecidableEq

/-- Modelled from the spec: `Timer::new_running(duration, now)` is called by
`DaemonCtx::_start_timer` but its definition is absent from the provided
sources (src/sand/timer.rs is an older revision without it). The spec states
that starting "inserts a new Running timer due at `now + duration`"; the
`initial_duration` field records the requested duration, as
`Timers::restart` reads it back. -/
def Timer.new_running (duration : Nat) (now : Int) : Timer :=
  { state := .Running ⟨now + (duration : Int)⟩, initial_duration := duration }

/-- src/sand/message.rs: `pub enum TimerStateClient { Paused, Running, Elapsed }`. -/
inductive TimerStateClient where
  | Paused
  | Running
  | Elapsed
deriving Repr, DecidableEq

/-- src/sand/message.rs: `pub struct TimerInfo { id, state, remaining }`. -/
structure TimerInfo where
  id : Nat
  state : TimerStateClient
  remaining : Nat
deriving Repr, DecidableEq

/-- src/sand/message.rs: `TimerInfo::new(id, timer, now)`. A paused timer
reports its stored remaining, a running one reports `due - now` (saturating
instant subtraction), an elapsed one reports `Duration::ZERO`. -/
def TimerInfo.new (id : Nat) (timer : Timer) (now : Int) : TimerInfo :=
  match timer.state with
  | .Paused p => { id := id, state := .Paused, remaining := p.remaining }
  | .Running r => { id := id, state := .Running, remaining := instantSub r.due now }
  | .Elapsed => { id := id, state := .Elapsed, remaining := 0 }

/-- src/sand/message.rs: `pub enum CancelTimerResponse`. -/
inductive CancelTimerResponse where
  | Ok
  | TimerNotFound
  | AlreadyElapsed
deriving Repr, DecidableEq

/-- src/sand/message.rs: `pub enum PauseTimerResponse`. -/
inductive PauseTimerResponse where
  | Ok
  | TimerNotFound
  | AlreadyPaused
  | AlreadyElapsed
deriving Repr, DecidableEq

/-- src/sand/message.rs: `pub enum ResumeTimerResponse`. -/
inductive ResumeTimerResponse where
  | Ok
  | TimerNotFound
  | AlreadyRunning
  | AlreadyElapsed
deriving Repr, DecidableEq

/-- src/sand/message.rs: `pub enum AgainResponse { Ok { id, duration: u64 },
NonePreviouslyStarted }`. -/
inductive AgainResponse where
  | Ok (id : Nat) (duration : Nat)
  | NonePreviouslyStarted
deriving Repr, DecidableEq

/-- src/sand/timers.rs: `pub struct Timers(DashMap<TimerId, Timer>)`, as an
association list; the list order stands for the DashMap's unspecified
iteration order. -/
abbrev Timers := List (Nat × Timer)

/-- The keys of the registry. -/
def keys (m : Timers) : List Nat := m.map Prod.fst

/-- Map lookup: the value at a key (the DashMap `entry(id)` /`get(id)` view;
first occurrence in list order). -/
def lookup (m : Timers) (id : Nat) : Option Timer :=
  (m.find? fun e => e.1 = id).map Prod.snd

/-- In-place overwrite of the timer stored at a key, as done through the
occupied-entry API (`entry.get_mut()` then assignment). -/
def update (m : Timers) (id : Nat) (t : Timer) : Timers :=
  m.map fun e => if e.1 = id then (e.1, t) else e

/-- Removal of a key, as done by `entry.remove()` / `DashMap::remove`. -/
def erase (m : Timers) (id : Nat) : Timers :=
  m.filter fun e => e.1 ≠ id

/-- The per-entry effect of src/sand/timers.rs `Timers::set_elapsed`: a
running timer with this id becomes `Elapsed`; any other state at this id is
a logged bug and left alone; other ids untouched. -/
def set_elapsed_entry (id : Nat) (e : Nat × Timer) : Nat × Timer :=
  if e.1 = id then
    match e.2.state with
    | .Running _ => (e.1, { e.2 with state := .Elapsed })
    | _ => e
  else e

/-- src/sand/timers.rs: `Timers::set_elapsed(timer_id)`. Should only be
called on running timers; a non-running or missing timer is logged and left
unchanged. -/
def set_elapsed (m : Timers) (id : Nat) : Timers :=
  m.map (set_elapsed_entry id)

/-- The accumulator step of Rust `Iterator::min_by_key`: the candidate
replaces the accumulator only when its key is strictly smaller, so ties keep
the earlier element. -/
def min_step (acc y : Nat × Nat) : Nat × Nat :=
  if y.2 < acc.2 then y else acc

/-- Rust `Iterator::min_by_key` on the second component: the first element
with minimal key in iteration order. -/
def min_by_key : List (Nat × Nat) → Option (Nat × Nat)
  | [] => none
  | x :: xs => some (xs.foldl min_step x)

/-- The `filter_map` body of `Timers::next_due_running`: a running timer
yields `(id, due - now)`, anything else is skipped. -/
def running_remaining (now : Int) (e : Nat × Timer) :
    Option (Nat × Nat) :=
  match e.2.state with
  | .Running r => some (e.1, instantSub r.due now)
  | _ => none

/-- src/sand/timers.rs: `Timers::next_due_running`. `now` is the
`Instant::now()` sampled inside the function. -/
def next_due_running (m : Timers) (now : Int) : Option (Nat × Nat) :=
  min_by_key (m.filterMap (running_remaining now))

/-- src/sand/timers.rs: `Timers::get_timerinfo_for_client(now)`. -/
def get_timerinfo_for_client (m : Timers) (now : Int) : List TimerInfo :=
  m.map fun e => TimerInfo.new e.1 e.2 now

/-- The registry is finite, so some positive id is unused: the id one past
the largest key is always vacant. Justifies that the unbounded search
`(1..).find_map(...)` in `Timers::first_vacant_entry` finds something and
its `.unwrap()` never panics. -/
theorem vacant_exists (m : Timers) : ∃ k : Nat, (k + 1) ∉ keys m := by
  have hle : ∀ (l : List Nat), ∀ x ∈ l, x ≤ l.foldr max 0 := by
    intro l
    induction l with
    | nil => intro x hx; cases hx
    | cons a l ih =>
      intro x hx
      rcases List.mem_cons.mp hx with h | h
      · simp [h, Nat.le_max_left a (l.foldr max 0)]
      · exact le_trans (ih x h) (Nat.le_max_right a (l.foldr max 0))
  exact ⟨(keys m).foldr max 0, fun hmem => absurd (hle _ _ hmem) (by omega)⟩

/-- src/sand/timers.rs: `Timers::first_vacant_entry`, the key it settles on:
`(1..).find_map(...)` probes ids 1, 2, 3, … in order and returns the first
whose entry is vacant, i.e. the least positive non-key. -/
def first_vacant_entry (m : Timers) : Nat :=
  Nat.find (vacant_exists m) + 1

/-- The update pass of src/sand/timers.rs `Timers::awaken`: every running
timer has the sleep duration subtracted from its due time
(`running.due -= sleep_duration`); paused and elapsed timers are skipped. -/
def awaken_step (sleep : Nat) (e : Nat × Timer) : Nat × Timer :=
  match e.2.state with
  | .Running r => (e.1, { e.2 with state := .Running ⟨r.due - (sleep : Int)⟩ })
  | _ => e

/-- The collection condition of `Timers::awaken`: a running timer is pushed
onto `elapsed_while_asleep` exactly when its post-subtraction due time is at
or before `now` (`if running.due <= now`). -/
def awaken_push (sleep : Nat) (now : Int) (e : Nat × Timer) :
    Option Nat :=
  match e.2.state with
  | .Running r => if r.due - (sleep : Int) ≤ now then some e.1 else none
  | _ => none

/-- src/sand/timers.rs: `Timers::awaken(sleep_duration)`. One pass subtracts
the sleep duration from every running timer's due time and collects (in
iteration order) the ids whose new due time is at or before `now`; a second
pass calls `set_elapsed` on each collected id. Returns the updated registry
and the collected id list. `now` is the `Instant::now()` sampled inside. -/
def awaken (m : Timers) (sleep : Nat) (now : Int) :
    Timers × List Nat :=
  let elapsed_while_asleep := m.filterMap (awaken_push sleep now)
  (elapsed_while_asleep.foldl set_elapsed (m.map (awaken_step sleep)),
   elapsed_while_asleep)

/-- src/daemon/ctx.rs: the registry plus `last_started` state of
`DaemonCtx` (the `Notify` handle and sound player carry no timer state). -/
structure DaemonCtx where
  timers : Timers
  last_started : Option Nat
deriving Repr, DecidableEq

/-- src/daemon/ctx.rs: `DaemonCtx::_start_timer(now, duration)` — take the
first vacant entry and insert `Timer::new_running(duration, now)` there,
returning the new id. -/
def _start_timer (m : Timers) (now : Int) (duration : Nat) :
    Nat × Timers :=
  let id := first_vacant_entry m
  (id, (id, Timer.new_running duration now) :: m)

/-- src/daemon/ctx.rs: `DaemonCtx::start_timer` — `_start_timer`, then
record the duration in `last_started`. -/
def start_timer (ctx : DaemonCtx) (now : Int) (duration : Nat) :
    Nat × DaemonCtx :=
  let r := _start_timer ctx.timers now duration
  (r.1, { timers := r.2, last_started := some duration })

/-- src/daemon/ctx.rs: `DaemonCtx::pause_timer(id, now)`. -/
def pause_timer (ctx : DaemonCtx) (id : Nat) (now : Int) :
    PauseTimerResponse × DaemonCtx :=
  match lookup ctx.timers id with
  | none => (.TimerNotFound, ctx)
  | some t =>
    match t.state with
    | .Running r =>
        let remaining := instantSub r.due now
        (.Ok, { ctx with
          timers := update ctx.timers id { t with state := .Paused ⟨remaining⟩ } })
    | .Paused _ => (.AlreadyPaused, ctx)
    | .Elapsed => (.AlreadyElapsed, ctx)

/-- src/daemon/ctx.rs: `DaemonCtx::resume_timer(id, now)`. -/
def resume_timer (ctx : DaemonCtx) (id : Nat) (now : Int) :
    ResumeTimerResponse × DaemonCtx :=
  match lookup ctx.timers id with
  | none => (.TimerNotFound, ctx)
  | some t =>
    match t.state with
    | .Paused p =>
        (.Ok, { ctx with
          timers := update ctx.timers id
            { t with state := .Running ⟨now + (p.remaining : Int)⟩ } })
    | .Running _ => (.AlreadyRunning, ctx)
    | .Elapsed => (.AlreadyElapsed, ctx)

/-- src/daemon/ctx.rs: `DaemonCtx::cancel_timer(id, now)`. A paused or
running timer is removed and `Ok` returned (`now` is only used to log the
remaining time); an elapsed timer returns `AlreadyElapsed` without removal;
a missing id returns `TimerNotFound`. -/
def cancel_timer (ctx : DaemonCtx) (id : Nat) (_now : Int) :
    CancelTimerResponse × DaemonCtx :=
  match lookup ctx.timers id with
  | none => (.TimerNotFound, ctx)
  | some t =>
    match t.state with
    | .Elapsed => (.AlreadyElapsed, ctx)
    | _ => (.Ok, { ctx with timers := erase ctx.timers id })

/-- src/daemon/ctx.rs: `DaemonCtx::again(now)` — if some timer was started
before, start a fresh timer with the most recent duration and answer
`Ok { id, duration: duration.as_millis() as u64 }`; otherwise answer
`NonePreviouslyStarted`. `last_started` is only read. -/
def again (ctx : DaemonCtx) (now : Int) : AgainResponse × DaemonCtx :=
  match ctx.last_started with
  | some duration =>
      let r := _start_timer ctx.timers now duration
      (.Ok r.1 (asMillis duration), { ctx with timers := r.2 })
  | none => (.NonePreviouslyStarted, ctx)

/-- src/daemon/ctx.rs: the sleep-duration computation in
`DaemonCtx::handle_asleep_state`: `woke_at.duration_since(slept_at)` yields
the difference on `Ok`, and the `Err` branch (system clock went backwards
across the sleep) is logged and replaced by `Duration::ZERO`. -/
def sleep_duration_on_wake (slept_at woke_at : Nat) : Nat :=
  if slept_at ≤ woke_at then woke_at - slept_at else 0

/-! ### Lemmas about the registry as an association list -/

theorem keys_cons (e : Nat × Timer) (m : Timers) :
    keys (e :: m) = e.1 :: keys m := rfl

theorem lookup_cons (e : Nat × Timer) (m : Timers) (id : Nat) :
    lookup (e :: m) id = if e.1 = id then some e.2 else lookup m id := by
  unfold lookup
  by_cases h : e.1 = id
  · rw [List.find?_cons_of_pos] <;> simp [h]
  · rw [List.find?_cons_of_neg] <;> simp [h]

theorem lookup_eq_none_iff {m : Timers} {id : Nat} :
    lookup m id = none ↔ id ∉ keys m := by
  induction m with
  | nil => simp [lookup, keys]
  | cons e m ih =>
    by_cases h : e.1 = id
    · rw [lookup_cons, keys_cons, if_pos h, h]
      simp
    · rw [lookup_cons, keys_cons, if_neg h, ih, List.mem_cons]
      constructor
      · intro hn hor
        rcases hor with heq | hmem
        · exact h heq.symm
        · exact hn hmem
      · intro hn hmem
        exact hn (Or.inr hmem)

theorem mem_keys_of_lookup {m : Timers} {id : Nat} {t : Timer}
    (h : lookup m id = some t) : id ∈ keys m := by
  by_contra hmem
  rw [← lookup_eq_none_iff] at hmem
  rw [h] at hmem
  cases hmem

theorem lookup_of_mem_nodup {m : Timers} {i : Nat} {t : Timer}
    (hnd : (keys m).Nodup) (h : (i, t) ∈ m) : lookup m i = some t := by
  induction m with
  | nil => cases h
  | cons e m ih =>
    rw [keys_cons, List.nodup_cons] at hnd
    rw [lookup_cons]
    rcases List.mem_cons.mp h with heq | hmem
    · simp [← heq]
    · have hne : e.1 ≠ i := fun heq => by
        apply hnd.1
        rw [heq]
        exact List.mem_map_of_mem Prod.fst hmem
      simp [hne, ih hnd.2 hmem]

theorem mem_of_mem_nodup_lookup {m : Timers} {i : Nat} {t u : Timer}
    (hnd : (keys m).Nodup) (hmem : (i, t) ∈ m) (hlk : lookup m i = some u) :
    u = t := by
  have := lookup_of_mem_nodup hnd hmem
  rw [this] at hlk
  exact (Option.some.inj hlk).symm

theorem keys_update (m : Timers) (id : Nat) (t : Timer) :
    keys (update m id t) = keys m := by
  unfold keys update
  rw [List.map_map]
  apply List.map_congr_left
  intro e _
  by_cases h : e.1 = id <;> simp [h]

theorem lookup_update_self {m : Timers} {id : Nat} (t : Timer)
    (h : id ∈ keys m) : lookup (update m id t) id = some t := by
  induction m with
  | nil => cases h
  | cons e m ih =>
    rw [keys_cons] at h
    by_cases he : e.1 = id
    · show lookup ((if e.1 = id then (e.1, t) else e) :: update m id t) id = some t
      rw [lookup_cons]
      simp [he]
    · show lookup ((if e.1 = id then (e.1, t) else e) :: update m id t) id = some t
      rw [lookup_cons]
      rcases List.mem_cons.mp h with heq | hmem
      · exact absurd heq.symm he
      · simp [he, ih hmem]

theorem lookup_erase_self (m : Timers) (id : Nat) :
    lookup (erase m id) id = none := by
  rw [lookup_eq_none_iff]
  intro hmem
  unfold keys erase at hmem
  rcases List.mem_map.mp hmem with ⟨e, he, heq⟩
  rcases List.mem_filter.mp he with ⟨_, hne⟩
  simp at hne
  exact hne heq

/-! ### Lemmas about instant arithmetic -/

theorem instantSub_le_iff {a now : Int} {s : Nat} :
    instantSub a now ≤ s ↔ a - (s : Int) ≤ now := by
  unfold instantSub
  omega

theorem instantSub_sub {a now : Int} {s : Nat}
    (h : s < instantSub a now) :
    instantSub (a - (s : Int)) now = instantSub a now - s := by
  unfold instantSub at h ⊢
  omega

/-! ### Lemmas about `min_by_key` -/

theorem foldl_min_step_mem :
    ∀ (xs : List (Nat × Nat)) (x : Nat × Nat),
      xs.foldl min_step x ∈ x :: xs := by
  intro xs
  induction xs with
  | nil => intro x; simp
  | cons y ys ih =>
    intro x
    rw [List.foldl_cons]
    rcases List.mem_cons.mp (ih (min_step x y)) with h | h
    · rw [h]
      unfold min_step
      by_cases hc : y.2 < x.2 <;> simp [hc]
    · simp [h]

theorem foldl_min_step_le :
    ∀ (xs : List (Nat × Nat)) (x z : Nat × Nat),
      z ∈ x :: xs → (xs.foldl min_step x).2 ≤ z.2 := by
  intro xs
  induction xs with
  | nil =>
    intro x z hz
    rcases List.mem_cons.mp hz with h | h
    · rw [h]
      simp
    · cases h
  | cons y ys ih =>
    intro x z hz
    rw [List.foldl_cons]
    have hx : (min_step x y).2 ≤ x.2 := by
      unfold min_step
      by_cases hc : y.2 < x.2
      · rw [if_pos hc]
        omega
      · rw [if_neg hc]
    have hy : (min_step x y).2 ≤ y.2 := by
      unfold min_step
      by_cases hc : y.2 < x.2
      · rw [if_pos hc]
      · rw [if_neg hc]
        omega
    have hacc : (ys.foldl min_step (min_step x y)).2 ≤ (min_step x y).2 :=
      ih (min_step x y) _ (List.mem_cons_self _ _)
    rcases List.mem_cons.mp hz with h | h
    · rw [h]
      exact le_trans hacc hx
    rcases List.mem_cons.mp h with h2 | h2
    · rw [h2]
      exact le_trans hacc hy
    · exact ih (min_step x y) z (List.mem_cons_of_mem _ h2)

theorem min_by_key_mem {l : List (Nat × Nat)} {x : Nat × Nat}
    (h : min_by_key l = some x) : x ∈ l := by
  cases l with
  | nil => cases h
  | cons y ys =>
    unfold min_by_key at h
    rw [← Option.some.inj h]
    exact foldl_min_step_mem ys y

theorem min_by_key_le {l : List (Nat × Nat)} {x : Nat × Nat}
    (h : min_by_key l = some x) : ∀ y ∈ l, x.2 ≤ y.2 := by
  cases l with
  | nil => cases h
  | cons y ys =>
    unfold min_by_key at h
    intro z hz
    rw [← Option.some.inj h]
    exact foldl_min_step_le ys y z hz

theorem min_by_key_eq_none_iff {l : List (Nat × Nat)} :
    min_by_key l = none ↔ l = [] := by
  cases l <;> simp [min_by_key]

/-! ### Lemmas about `awaken` -/

/-- The cumulative effect on one registry entry of running `set_elapsed` over
a list of ids: the entry is marked elapsed exactly when it is running and its
key occurs in the list. -/
def elapse_mark (l : List Nat) (e : Nat × Timer) : Nat × Timer :=
  match e.2.state with
  | .Running _ => if e.1 ∈ l then (e.1, { e.2 with state := .Elapsed }) else e
  | _ => e

theorem elapse_mark_nil (e : Nat × Timer) : elapse_mark [] e = e := by
  unfold elapse_mark
  split <;> simp

theorem elapse_mark_cons (a : Nat) (l : List Nat) (e : Nat × Timer) :
    elapse_mark (a :: l) e = elapse_mark l (set_elapsed_entry a e) := by
  rcases e with ⟨i, t⟩
  unfold elapse_mark set_elapsed_entry
  rcases hs : t.state with r | p | _
  · by_cases hia : i = a
    · subst hia
      simp [hs]
    · simp only [hs, if_neg hia, List.mem_cons]
      by_cases hil : i ∈ l <;> simp [hs, hil, hia]
  · by_cases hia : i = a <;> simp [hs, hia]
  · by_cases hia : i = a <;> simp [hs, hia]

theorem length_foldl_set_elapsed (l : List Nat) (acc : Timers) :
    (l.foldl set_elapsed acc).length = acc.length := by
  induction l generalizing acc with
  | nil => rfl
  | cons a l ih =>
    rw [List.foldl_cons, ih]
    exact List.length_map acc (set_elapsed_entry a)

theorem get_foldl_set_elapsed (l : List Nat) (acc : Timers) (k : Nat)
    (h : k < acc.length) (hk : k < (l.foldl set_elapsed acc).length) :
    (l.foldl set_elapsed acc).get ⟨k, hk⟩ = elapse_mark l (acc.get ⟨k, h⟩) := by
  induction l generalizing acc with
  | nil => rw [elapse_mark_nil]; rfl
  | cons a l ih =>
    have h2 : k < (set_elapsed acc a).length := by
      unfold set_elapsed
      rw [List.length_map]
      exact h
    have hk2 : k < (l.foldl set_elapsed (set_elapsed acc a)).length := by
      rw [length_foldl_set_elapsed]
      exact h2
    have hget : (set_elapsed acc a).get ⟨k, h2⟩
        = set_elapsed_entry a (acc.get ⟨k, h⟩) := by
      simp [set_elapsed, List.get_eq_getElem]
    calc ((a :: l).foldl set_elapsed acc).get ⟨k, hk⟩
        = (l.foldl set_elapsed (set_elapsed acc a)).get ⟨k, hk2⟩ := rfl
      _ = elapse_mark l ((set_elapsed acc a).get ⟨k, h2⟩) := ih _ h2 hk2
      _ = elapse_mark l (set_elapsed_entry a (acc.get ⟨k, h⟩)) := by rw [hget]
      _ = elapse_mark (a :: l) (acc.get ⟨k, h⟩) := (elapse_mark_cons a l _).symm

theorem awaken_fst_length (m : Timers) (s : Nat) (now : Int) :
    (awaken m s now).1.length = m.length := by
  unfold awaken
  rw [length_foldl_set_elapsed, List.length_map]

theorem awaken_get (m : Timers) (s : Nat) (now : Int) (k : Nat)
    (h : k < m.length) (hk : k < (awaken m s now).1.length) :
    (awaken m s now).1.get ⟨k, hk⟩
      = elapse_mark (awaken m s now).2 (awaken_step s (m.get ⟨k, h⟩)) := by
  have h2 : k < (m.map (awaken_step s)).length := by
    rw [List.length_map]
    exact h
  have hk2 : k <
      ((m.filterMap (awaken_push s now)).foldl set_elapsed
        (m.map (awaken_step s))).length := by
    rw [length_foldl_set_elapsed]
    exact h2
  show ((m.filterMap (awaken_push s now)).foldl set_elapsed
      (m.map (awaken_step s))).get ⟨k, hk2⟩
    = elapse_mark (m.filterMap (awaken_push s now)) (awaken_step s (m.get ⟨k, h⟩))
  rw [get_foldl_set_elapsed _ _ k h2 hk2]
  have hgm : (m.map (awaken_step s)).get ⟨k, h2⟩ = awaken_step s (m.get ⟨k, h⟩) := by
    simp [List.get_eq_getElem]
  rw [hgm]

theorem awaken_push_eq_some {s : Nat} {now : Int} {e : Nat × Timer} {i : Nat}
    (h : awaken_push s now e = some i) : i = e.1 := by
  unfold awaken_push at h
  split at h
  · split at h
    · exact (Option.some.inj h).symm
    · cases h
  · cases h

theorem awaken_ids_sublist (m : Timers) (s : Nat) (now : Int) :
    (awaken m s now).2.Sublist (keys m) := by
  show (m.filterMap (awaken_push s now)).Sublist (keys m)
  induction m with
  | nil => simp
  | cons e m ih =>
    rw [keys_cons, List.filterMap_cons]
    cases hp : awaken_push s now e with
    | none => exact ih.cons e.1
    | some i =>
      rw [awaken_push_eq_some hp]
      exact ih.cons₂ e.1

theorem mem_awaken_ids {m : Timers} {s : Nat} {now : Int} {i : Nat} :
    i ∈ (awaken m s now).2 ↔
      ∃ t, (i, t) ∈ m ∧ awaken_push s now (i, t) = some i := by
  show i ∈ m.filterMap (awaken_push s now) ↔ _
  rw [List.mem_filterMap]
  constructor
  · rintro ⟨e, hmem, hp⟩
    have he1 := awaken_push_eq_some hp
    refine ⟨e.2, ?_, ?_⟩
    · rw [he1]
      exact hmem
    · rw [he1] at hp ⊢
      exact hp
  · rintro ⟨t, hmem, hp⟩
    exact ⟨(i, t), hmem, hp⟩

theorem awaken_push_running {s : Nat} {now : Int} {i : Nat} {t : Timer}
    {r : RunningTimer} (hr : t.state = .Running r) :
    awaken_push s now (i, t) = some i ↔ r.due - (s : Int) ≤ now := by
  unfold awaken_push
  simp only [hr]
  by_cases hc : r.due - (s : Int) ≤ now <;> simp [hc]

theorem awaken_ids_mem_iff {m : Timers} {s : Nat} {now : Int} {i : Nat}
    {t : Timer} {r : RunningTimer} (hnd : (keys m).Nodup)
    (hmem : (i, t) ∈ m) (hr : t.state = .Running r) :
    i ∈ (awaken m s now).2 ↔ r.due - (s : Int) ≤ now := by
  rw [mem_awaken_ids]
  constructor
  · rintro ⟨u, humem, hp⟩
    have hut : u = t := by
      have h1 := lookup_of_mem_nodup hnd hmem
      have h2 := lookup_of_mem_nodup hnd humem
      rw [h1] at h2
      exact (Option.some.inj h2).symm
    subst hut
    exact (awaken_push_running hr).mp hp
  · intro hle
    exact ⟨t, hmem, (awaken_push_running hr).mpr hle⟩

theorem awaken_mem_paused {m : Timers} {s : Nat} {now : Int} {i : Nat}
    {t : Timer} {p : PausedTimer} (hmem : (i, t) ∈ m)
    (hp : t.state = .Paused p) : (i, t) ∈ (awaken m s now).1 := by
  rcases List.mem_iff_get.mp hmem with ⟨⟨k, h⟩, hget⟩
  have hk : k < (awaken m s now).1.length := by
    rw [awaken_fst_length]
    exact h
  have := awaken_get m s now k h hk
  rw [hget] at this
  have hstep : awaken_step s (i, t) = (i, t) := by
    unfold awaken_step
    simp [hp]
  have hmark : elapse_mark (awaken m s now).2 (i, t) = (i, t) := by
    unfold elapse_mark
    simp [hp]
  rw [hstep, hmark] at this
  rw [← this]
  exact (awaken m s now).1.get_mem _ _

theorem awaken_mem_elapsed {m : Timers} {s : Nat} {now : Int} {i : Nat}
    {t : Timer} (hmem : (i, t) ∈ m) (he : t.state = .Elapsed) :
    (i, t) ∈ (awaken m s now).1 := by
  rcases List.mem_iff_get.mp hmem with ⟨⟨k, h⟩, hget⟩
  have hk : k < (awaken m s now).1.length := by
    rw [awaken_fst_length]
    exact h
  have := awaken_get m s now k h hk
  rw [hget] at this
  have hstep : awaken_step s (i, t) = (i, t) := by
    unfold awaken_step
    simp [he]
  have hmark : elapse_mark (awaken m s now).2 (i, t) = (i, t) := by
    unfold elapse_mark
    simp [he]
  rw [hstep, hmark] at this
  rw [← this]
  exact (awaken m s now).1.get_mem _ _

theorem awaken_mem_running_stay {m : Timers} {s : Nat} {now : Int} {i : Nat}
    {t : Timer} {r : RunningTimer} (hnd : (keys m).Nodup)
    (hmem : (i, t) ∈ m) (hr : t.state = .Running r)
    (hlt : now < r.due - (s : Int)) :
    (i, { t with state := .Running ⟨r.due - (s : Int)⟩ }) ∈ (awaken m s now).1 ∧
      i ∉ (awaken m s now).2 := by
  have hnotin : i ∉ (awaken m s now).2 := by
    rw [awaken_ids_mem_iff hnd hmem hr]
    omega
  refine ⟨?_, hnotin⟩
  rcases List.mem_iff_get.mp hmem with ⟨⟨k, h⟩, hget⟩
  have hk : k < (awaken m s now).1.length := by
    rw [awaken_fst_length]
    exact h
  have hidx := awaken_get m s now k h hk
  rw [hget] at hidx
  have hstep : awaken_step s (i, t)
      = (i, { t with state := .Running ⟨r.due - (s : Int)⟩ }) := by
    unfold awaken_step
    simp [hr]
  have hmark : elapse_mark (awaken m s now).2
      (i, { t with state := .Running ⟨r.due - (s : Int)⟩ })
      = (i, { t with state := .Running ⟨r.due - (s : Int)⟩ }) := by
    unfold elapse_mark
    simp [hnotin]
  rw [hstep, hmark] at hidx
  rw [← hidx]
  exact (awaken m s now).1.get_mem _ _

theorem awaken_mem_running_elapse {m : Timers} {s : Nat} {now : Int} {i : Nat}
    {t : Timer} {r : RunningTimer} (hnd : (keys m).Nodup)
    (hmem : (i, t) ∈ m) (hr : t.state = .Running r)
    (hle : r.due - (s : Int) ≤ now) :
    (i, { t with state := .Elapsed }) ∈ (awaken m s now).1 ∧
      (awaken m s now).2.count i = 1 := by
  have hin : i ∈ (awaken m s now).2 :=
    (awaken_ids_mem_iff hnd hmem hr).mpr hle
  constructor
  · rcases List.mem_iff_get.mp hmem with ⟨⟨k, h⟩, hget⟩
    have hk : k < (awaken m s now).1.length := by
      rw [awaken_fst_length]
      exact h
    have hidx := awaken_get m s now k h hk
    rw [hget] at hidx
    have hstep : awaken_step s (i, t)
        = (i, { t with state := .Running ⟨r.due - (s : Int)⟩ }) := by
      unfold awaken_step
      simp [hr]
    have hmark : elapse_mark (awaken m s now).2
        (i, { t with state := .Running ⟨r.due - (s : Int)⟩ })
        = (i, { t with state := .Elapsed }) := by
      unfold elapse_mark
      simp [hin]
    rw [hstep, hmark] at hidx
    rw [← hidx]
    exact (awaken m s now).1.get_mem _ _
  · have hids_nodup : (awaken m s now).2.Nodup :=
      (awaken_ids_sublist m s now).nodup hnd
    exact List.count_eq_one_of_mem hids_nodup hin

/-! ### Lemmas about `first_vacant_entry` -/

theorem first_vacant_entry_not_mem (m : Timers) :
    first_vacant_entry m ∉ keys m :=
  Nat.find_spec (vacant_exists m)

theorem first_vacant_entry_pos (m : Timers) : 0 < first_vacant_entry m :=
  Nat.succ_pos _

theorem mem_keys_of_lt_first_vacant {m : Timers} {j : Nat} (h0 : 0 < j)
    (hlt : j < first_vacant_entry m) : j ∈ keys m := by
  have hj : j - 1 < Nat.find (vacant_exists m) := by
    unfold first_vacant_entry at hlt
    omega
  have := Nat.find_min (vacant_exists m) hj
  rw [not_not] at this
  have hj1 : j - 1 + 1 = j := by omega
  rw [hj1] at this
  exact this

theorem first_vacant_entry_le (m : Timers) :
    first_vacant_entry m ≤ m.length + 1 := by
  by_contra hgt
  push_neg at hgt
  have hsub : Finset.Icc 1 (m.length + 1) ⊆ (keys m).toFinset := by
    intro j hj
    rw [Finset.mem_Icc] at hj
    rw [List.mem_toFinset]
    exact mem_keys_of_lt_first_vacant (by omega) (by omega)
  have hcard := Finset.card_le_card hsub
  rw [Nat.card_Icc] at hcard
  have hlen : (keys m).toFinset.card ≤ (keys m).length :=
    (keys m).toFinset_card_le
  have hkeys : (keys m).length = m.length := List.length_map m Prod.fst
  omega

theorem first_vacant_entry_eq {m : Timers} {n : Nat}
    (h1 : (n + 1) ∉ keys m) (h2 : ∀ k, k < n → (k + 1) ∈ keys m) :
    first_vacant_entry m = n + 1 := by
  unfold first_vacant_entry
  have : Nat.find (vacant_exists m) = n := by
    rw [Nat.find_eq_iff]
    constructor
    · exact h1
    · intro k hk
      rw [not_not]
      exact h2 k hk
  rw [this]

/-! ### Concrete sample timers used by witnesses and counterexamples -/

/-- A concrete running timer with the given due instant. -/
def runningT (due : Int) : Timer :=
  { state := .Running ⟨due⟩, initial_duration := 7 }

/-- A concrete paused timer with the given remaining duration. -/
def pausedT (r : Nat) : Timer :=
  { state := .Paused ⟨r⟩, initial_duration := 7 }

/-- A concrete elapsed timer. -/
def elapsedT : Timer :=
  { state := .Elapsed, initial_duration := 7 }

/-! ### Claims -/

/-- C1: `Timers::awaken(sleep_duration)` leaves every Paused and Elapsed
timer unchanged and subtracts the sleep duration from the due time of every
Running timer; a Running timer with remaining `R = due - now` becomes Elapsed
and its id appears exactly once in the returned list exactly when
`sleep_duration ≥ R`, and when `sleep_duration < R` it stays Running with
remaining `R - sleep_duration` and is absent from the returned list. -/
theorem awaken_spec (m : Timers) (sleep : Nat) (now : Int)
    (hnd : (keys m).Nodup) :
    ∀ i t, (i, t) ∈ m →
      (∀ p, t.state = .Paused p → (i, t) ∈ (awaken m sleep now).1) ∧
      (t.state = .Elapsed → (i, t) ∈ (awaken m sleep now).1) ∧
      (∀ r, t.state = .Running r →
        (instantSub r.due now ≤ sleep →
          (i, { t with state := .Elapsed }) ∈ (awaken m sleep now).1 ∧
          (awaken m sleep now).2.count i = 1) ∧
        (sleep < instantSub r.due now →
          (i, { t with state := .Running ⟨r.due - (sleep : Int)⟩ })
              ∈ (awaken m sleep now).1 ∧
          instantSub (r.due - (sleep : Int)) now = instantSub r.due now - sleep ∧
          i ∉ (awaken m sleep now).2)) := by
  intro i t hmem
  refine ⟨fun p hp => awaken_mem_paused hmem hp,
          fun he => awaken_mem_elapsed hmem he,
          fun r hr => ⟨fun hle => ?_, fun hlt => ?_⟩⟩
  · have hle2 : r.due - (sleep : Int) ≤ now := instantSub_le_iff.mp hle
    exact awaken_mem_running_elapse hnd hmem hr hle2
  · have hlt2 : now < r.due - (sleep : Int) := by
      by_contra hc
      push_neg at hc
      have := instantSub_le_iff.mpr hc
      omega
    have h := awaken_mem_running_stay hnd hmem hr hlt2
    exact ⟨h.1, instantSub_sub hlt, h.2⟩

/-- Witness for C1: a single running timer with remaining 5 elapses under a
sleep of 5 and its id is reported exactly once. -/
theorem awaken_spec_witness :
    ((1 : Nat), ({ state := .Elapsed, initial_duration := 7 } : Timer))
        ∈ (awaken [(1, runningT 5)] 5 0).1 ∧
    (awaken [((1 : Nat), runningT 5)] 5 0).2.count 1 = 1 := by
  have h := awaken_spec [(1, runningT 5)] 5 0 (by decide)
  exact ((h 1 (runningT 5) (by decide)).2.2 ⟨5⟩ rfl).1 (by decide)

/-- C2: starting a timer allocates the smallest positive integer not in use
as the id and inserts a Running timer due at `now + duration` (via the
spec-modelled `Timer.new_running`); in particular a freshly cancelled id is
reused by the next start whenever it is the smallest free one. -/
theorem start_timer_spec (ctx : DaemonCtx) (now : Int) (duration : Nat) :
    (start_timer ctx now duration).1 = first_vacant_entry ctx.timers ∧
    0 < (start_timer ctx now duration).1 ∧
    (start_timer ctx now duration).1 ∉ keys ctx.timers ∧
    (∀ j, 0 < j → j < (start_timer ctx now duration).1 → j ∈ keys ctx.timers) ∧
    lookup (start_timer ctx now duration).2.timers
        (start_timer ctx now duration).1
      = some { state := .Running ⟨now + (duration : Int)⟩,
               initial_duration := duration } := by
  refine ⟨rfl, first_vacant_entry_pos _, first_vacant_entry_not_mem _,
          fun j h0 hlt => mem_keys_of_lt_first_vacant h0 hlt, ?_⟩
  show lookup ((first_vacant_entry ctx.timers, Timer.new_running duration now)
      :: ctx.timers) (first_vacant_entry ctx.timers) = _
  rw [lookup_cons, if_pos rfl]
  rfl

/-- Witness for C2, the spec scenario: start three timers, cancel id 2; the
next start reuses id 2 (not 4). -/
theorem start_timer_spec_witness :
    (start_timer
      (cancel_timer ⟨[(1, runningT 11), (2, runningT 12), (3, runningT 13)],
        some 5⟩ 2 0).2 0 5).1 = 2 := by
  have h := start_timer_spec
    (cancel_timer ⟨[(1, runningT 11), (2, runningT 12), (3, runningT 13)],
      some 5⟩ 2 0).2 0 5
  have hfv := first_vacant_entry_eq
    (m := (cancel_timer ⟨[(1, runningT 11), (2, runningT 12), (3, runningT 13)],
      some 5⟩ 2 0).2.timers)
    (n := 1) (by decide) (by decide)
  exact h.1.trans hfv

/-- C3 counterexample: the claim says cancel succeeds on a timer in any
state, including Elapsed. On the code, cancelling the present id 1 whose
timer is Elapsed returns `AlreadyElapsed` (neither `Ok` nor `TimerNotFound`)
and leaves the registry unchanged, so the id is not freed. -/
theorem cancel_elapsed_counterexample :
    cancel_timer ⟨[(1, elapsedT)], none⟩ 1 0
      = (.AlreadyElapsed, ⟨[(1, elapsedT)], none⟩) ∧
    lookup [((1 : Nat), elapsedT)] 1 = some elapsedT := by
  decide

/-- C3 (amended): cancel removes the entry and succeeds for a Running or
Paused timer, freeing the id; on an Elapsed timer it fails with
`AlreadyElapsed` and leaves the registry unchanged; it fails with
`TimerNotFound` exactly when the id is absent. -/
theorem cancel_timer_spec (ctx : DaemonCtx) (id : Nat) (now : Int) :
    ((cancel_timer ctx id now).1 = .TimerNotFound ↔
      lookup ctx.timers id = none) ∧
    ((cancel_timer ctx id now).1 = .AlreadyElapsed ↔
      ∃ t, lookup ctx.timers id = some t ∧ t.state = .Elapsed) ∧
    ((cancel_timer ctx id now).1 ≠ .Ok → (cancel_timer ctx id now).2 = ctx) ∧
    ((cancel_timer ctx id now).1 = .Ok ↔
      ∃ t, lookup ctx.timers id = some t ∧ t.state ≠ .Elapsed) ∧
    ((cancel_timer ctx id now).1 = .Ok →
      (cancel_timer ctx id now).2.timers = erase ctx.timers id ∧
      lookup (cancel_timer ctx id now).2.timers id = none) := by
  rcases hl : lookup ctx.timers id with _ | t
  · have hred : cancel_timer ctx id now = (.TimerNotFound, ctx) := by
      simp [cancel_timer, hl]
    rw [hred]
    simp
  · rcases hs : t.state with r | p | _
    · have hred : cancel_timer ctx id now
          = (.Ok, { ctx with timers := erase ctx.timers id }) := by
        simp [cancel_timer, hl, hs]
      rw [hred]
      refine ⟨by simp, by simp [hs], by simp, by simp [hs],
              fun _ => ⟨rfl, lookup_erase_self _ _⟩⟩
    · have hred : cancel_timer ctx id now
          = (.Ok, { ctx with timers := erase ctx.timers id }) := by
        simp [cancel_timer, hl, hs]
      rw [hred]
      refine ⟨by simp, by simp [hs], by simp, by simp [hs],
              fun _ => ⟨rfl, lookup_erase_self _ _⟩⟩
    · have hred : cancel_timer ctx id now = (.AlreadyElapsed, ctx) := by
        simp [cancel_timer, hl, hs]
      rw [hred]
      refine ⟨by simp, by simp [hs], by simp, by simp [hs], ?_⟩
      intro h
      simp at h

/-- Witness for C3 (amended): cancelling a present Running timer answers
`Ok` and afterwards the id no longer resolves. -/
theorem cancel_timer_spec_witness :
    (cancel_timer ⟨[(1, runningT 5)], none⟩ 1 0).1 = .Ok ∧
    lookup (cancel_timer ⟨[(1, runningT 5)], none⟩ 1 0).2.timers 1 = none := by
  have h := cancel_timer_spec ⟨[(1, runningT 5)], none⟩ 1 0
  have hok : (cancel_timer ⟨[(1, runningT 5)], none⟩ 1 0).1 = .Ok :=
    h.2.2.2.1.mpr ⟨runningT 5, by decide, by decide⟩
  exact ⟨hok, (h.2.2.2.2 hok).2⟩

/-- C4 counterexample: a Running timer already overdue at the pause instant
does not get its due time restored by pause-then-resume at the same instant.
The timer at id 1 is due at 5; pausing at instant 10 stores remaining
`5 - 10` saturated to 0 (Rust `Instant` subtraction), so resuming at 10
yields due 10, not the original 5. -/
theorem pause_resume_counterexample :
    (lookup [((1 : Nat), runningT 5)] 1).map Timer.state
      = some (.Running ⟨5⟩) ∧
    lookup (resume_timer (pause_timer ⟨[(1, runningT 5)], none⟩ 1 10).2
        1 10).2.timers 1
      = some { state := .Running ⟨10⟩, initial_duration := 7 } := by
  decide

/-- C4 (amended): for a Running timer with due time `D`, pausing at instant
`t` and resuming at the same instant `t` restores the timer exactly,
provided `t ≤ D` (the timer is not yet overdue when paused). -/
theorem pause_resume_roundtrip (ctx : DaemonCtx) (id : Nat) (now : Int)
    (t : Timer) (r : RunningTimer)
    (hl : lookup ctx.timers id = some t) (hr : t.state = .Running r)
    (hle : now ≤ r.due) :
    lookup (resume_timer (pause_timer ctx id now).2 id now).2.timers id
      = some t := by
  have hmem := mem_keys_of_lookup hl
  have hpause : (pause_timer ctx id now).2.timers
      = update ctx.timers id ({ t with state := .Paused ⟨instantSub r.due now⟩ }) := by
    simp [pause_timer, hl, hr]
  have hlook1 : lookup (pause_timer ctx id now).2.timers id
      = some ({ t with state := .Paused ⟨instantSub r.due now⟩ }) := by
    rw [hpause]
    exact lookup_update_self _ hmem
  have hmem2 : id ∈ keys (pause_timer ctx id now).2.timers := by
    rw [hpause, keys_update]
    exact hmem
  have hres : (resume_timer (pause_timer ctx id now).2 id now).2.timers
      = update (pause_timer ctx id now).2.timers id ({ t with state := .Running ⟨now + ((instantSub r.due now : Nat) : Int)⟩ }) := by
    simp [resume_timer, hlook1]
  rw [hres, lookup_update_self _ hmem2]
  have hdue : now + ((instantSub r.due now : Nat) : Int) = r.due := by
    unfold instantSub
    omega
  rw [hdue]
  rcases t with ⟨ts, init⟩
  change ts = TimerState.Running r at hr
  rw [hr]

/-- Witness for C4 (amended): pause at 3, resume at 3, due 5 is restored. -/
theorem pause_resume_roundtrip_witness :
    lookup (resume_timer (pause_timer ⟨[(1, runningT 5)], none⟩ 1 3).2
        1 3).2.timers 1
      = some (runningT 5) :=
  pause_resume_roundtrip ⟨[(1, runningT 5)], none⟩ 1 3 (runningT 5) ⟨5⟩
    (by decide) rfl (by decide)

/-- C6: pausing an already-Paused timer answers `AlreadyPaused` and changes
nothing: the whole daemon context is returned unchanged, so the timer keeps
its stored remaining and every other entry is untouched. -/
theorem pause_already_paused_spec (ctx : DaemonCtx) (id : Nat) (now : Int)
    (t : Timer) (p : PausedTimer)
    (hl : lookup ctx.timers id = some t) (hp : t.state = .Paused p) :
    pause_timer ctx id now = (.AlreadyPaused, ctx) ∧
    lookup (pause_timer ctx id now).2.timers id = some t := by
  have h : pause_timer ctx id now = (.AlreadyPaused, ctx) := by
    simp [pause_timer, hl, hp]
  refine ⟨h, ?_⟩
  rw [h]
  exact hl

/-- Witness for C6 at a paused timer with remaining 9. -/
theorem pause_already_paused_spec_witness :
    pause_timer ⟨[(1, pausedT 9)], none⟩ 1 4
      = (.AlreadyPaused, ⟨[(1, pausedT 9)], none⟩) ∧
    lookup (pause_timer ⟨[(1, pausedT 9)], none⟩ 1 4).2.timers 1
      = some (pausedT 9) :=
  pause_already_paused_spec ⟨[(1, pausedT 9)], none⟩ 1 4 (pausedT 9) ⟨9⟩
    (by decide) rfl

/-- Helper for C5: `running_remaining` yields `none` exactly on non-running
timers. -/
theorem running_remaining_eq_none {now : Int} {e : Nat × Timer} :
    running_remaining now e = none ↔
      ∀ r : RunningTimer, e.2.state ≠ .Running r := by
  unfold running_remaining
  rcases hs : e.2.state with r | p | _
  · constructor
    · intro h
      cases h
    · intro h
      exact absurd rfl (h r)
  · simp [hs]
  · simp [hs]

/-- Helper for C5: what `running_remaining` yielding a pair means. -/
theorem running_remaining_eq_some {now : Int} {e : Nat × Timer}
    {i : Nat} {rem : Nat}
    (h : running_remaining now e = some (i, rem)) :
    e.1 = i ∧ ∃ r, e.2.state = .Running r ∧ instantSub r.due now = rem := by
  unfold running_remaining at h
  rcases hs : e.2.state with r | p | _ <;> rw [hs] at h
  · have hpair := Option.some.inj h
    exact ⟨congrArg Prod.fst hpair, r, rfl, congrArg Prod.snd hpair⟩
  · cases h
  · cases h

/-- C5 counterexample: with two Running timers tied at remaining 10 and the
registry iterating id 2 before id 1 (DashMap iteration order is not sorted
by id), `next_due_running` returns id 2, not the smallest id 1. -/
theorem next_due_tie_counterexample :
    next_due_running [(2, runningT 10), (1, runningT 10)] 0 = some (2, 10) ∧
    ((1 : Nat), runningT 10) ∈ [((2 : Nat), runningT 10), ((1 : Nat), runningT 10)] ∧
    (1 : Nat) < 2 := by
  decide

/-- C5 (amended): `next_due_running` returns `none` exactly when no Running
timer exists; otherwise it returns a Running timer's id together with its
remaining, that remaining being minimal among all Running timers. Ties are
broken by the registry's (unspecified but fixed) iteration order, not by
smallest id. -/
theorem next_due_running_spec (m : Timers) (now : Int) :
    (next_due_running m now = none ↔
      ∀ e ∈ m, ∀ r : RunningTimer, e.2.state ≠ .Running r) ∧
    (∀ i rem, next_due_running m now = some (i, rem) →
      (∃ t r, (i, t) ∈ m ∧ t.state = .Running r ∧ instantSub r.due now = rem) ∧
      (∀ j u rr, (j, u) ∈ m → u.state = .Running rr →
        rem ≤ instantSub rr.due now)) := by
  constructor
  · show min_by_key (m.filterMap (running_remaining now)) = none ↔ _
    rw [min_by_key_eq_none_iff, List.filterMap_eq_nil_iff]
    constructor
    · intro h e he
      exact running_remaining_eq_none.mp (h e he)
    · intro h e he
      exact running_remaining_eq_none.mpr (h e he)
  · intro i rem hsome
    have hmem : ((i, rem) : Nat × Nat) ∈ m.filterMap (running_remaining now) :=
      min_by_key_mem hsome
    rcases List.mem_filterMap.mp hmem with ⟨e, hemem, heq⟩
    rcases running_remaining_eq_some heq with ⟨he1, r, hr, hrem⟩
    constructor
    · refine ⟨e.2, r, ?_, hr, hrem⟩
      rw [← he1]
      exact hemem
    · intro j u rr hju hur
      have hmem2 : ((j, instantSub rr.due now) : Nat × Nat)
          ∈ m.filterMap (running_remaining now) := by
        rw [List.mem_filterMap]
        refine ⟨(j, u), hju, ?_⟩
        unfold running_remaining
        rw [hur]
      exact min_by_key_le hsome _ hmem2

/-- Witness for C5 (amended) with remainings 10 and 4: the returned timer
exists, is Running, and its remaining 4 is minimal. -/
theorem next_due_running_spec_witness :
    (∃ t r, ((2 : Nat), t) ∈ [((1 : Nat), runningT 10), ((2 : Nat), runningT 4)] ∧
      t.state = .Running r ∧ instantSub r.due 0 = 4) ∧
    (4 : Nat) ≤ instantSub 10 0 := by
  have h := next_due_running_spec [(1, runningT 10), (2, runningT 4)] 0
  have h2 := h.2 2 4 (by decide)
  exact ⟨h2.1, h2.2 1 (runningT 10) ⟨10⟩ (by decide) rfl⟩

/-- C7: the remaining duration reported to a client is never negative: a
Paused timer reports its stored remaining, a Running timer reports
`due - now` which saturates to zero when the due time is in the past, and an
Elapsed timer reports zero. -/
theorem timer_info_remaining_spec (id : Nat) (t : Timer) (now : Int)
    (m : Timers) :
    (∀ p, t.state = .Paused p →
      (TimerInfo.new id t now).state = .Paused ∧
      (TimerInfo.new id t now).remaining = p.remaining) ∧
    (∀ r, t.state = .Running r →
      (TimerInfo.new id t now).state = .Running ∧
      (TimerInfo.new id t now).remaining = instantSub r.due now ∧
      (r.due ≤ now → (TimerInfo.new id t now).remaining = 0)) ∧
    (t.state = .Elapsed →
      (TimerInfo.new id t now).state = .Elapsed ∧
      (TimerInfo.new id t now).remaining = 0) ∧
    (∀ info ∈ get_timerinfo_for_client m now, 0 ≤ (info.remaining : Int)) := by
  refine ⟨?_, ?_, ?_, fun info _ => Int.natCast_nonneg info.remaining⟩
  · intro p hp
    constructor <;> simp [TimerInfo.new, hp]
  · intro r hr
    refine ⟨by simp [TimerInfo.new, hr], by simp [TimerInfo.new, hr], ?_⟩
    intro hle
    have hz : instantSub r.due now = 0 := by
      unfold instantSub
      omega
    simp [TimerInfo.new, hr, hz]
  · intro he
    constructor <;> simp [TimerInfo.new, he]

/-- Witness for C7: an overdue running timer (due 3, now 5) reports zero
remaining. -/
theorem timer_info_remaining_spec_witness :
    (TimerInfo.new 1 (runningT 3) 5).remaining = 0 := by
  have h := timer_info_remaining_spec 1 (runningT 3) 5 []
  exact ((h.2.1 ⟨3⟩ rfl).2.2 (by decide))

/-- C8: when the wall clock at wake is earlier than `slept_at`, the sleep
duration computed by `handle_asleep_state` is zero (the `Err` branch of
`duration_since` replaces it with `Duration::ZERO` instead of panicking; the
embedding is total, so no panic is possible), `awaken` is called with zero,
and no timer's due time changes: every Paused or Elapsed timer and every
not-yet-due Running timer comes out exactly as it went in, and no
still-running timer is reported as elapsed. -/
theorem wake_clock_backward_spec (slept_at woke_at : Nat) (m : Timers)
    (now : Int) (hclock : woke_at < slept_at) (hnd : (keys m).Nodup) :
    sleep_duration_on_wake slept_at woke_at = 0 ∧
    (∀ i t, (i, t) ∈ m →
      (∀ p, t.state = .Paused p →
        (i, t) ∈ (awaken m (sleep_duration_on_wake slept_at woke_at) now).1) ∧
      (t.state = .Elapsed →
        (i, t) ∈ (awaken m (sleep_duration_on_wake slept_at woke_at) now).1) ∧
      (∀ r, t.state = .Running r → now < r.due →
        (i, t) ∈ (awaken m (sleep_duration_on_wake slept_at woke_at) now).1 ∧
        i ∉ (awaken m (sleep_duration_on_wake slept_at woke_at) now).2)) := by
  have hz : sleep_duration_on_wake slept_at woke_at = 0 := by
    unfold sleep_duration_on_wake
    rw [if_neg (by omega)]
  refine ⟨hz, fun i t hmem => ⟨fun p hp => awaken_mem_paused hmem hp,
    fun he => awaken_mem_elapsed hmem he, fun r hr hdue => ?_⟩⟩
  rw [hz]
  have h := awaken_mem_running_stay hnd hmem hr
    (show now < r.due - ((0 : Nat) : Int) by omega)
  have heq : ({ t with state := .Running ⟨r.due - ((0 : Nat) : Int)⟩ } : Timer)
      = t := by
    rcases t with ⟨ts, init⟩
    change ts = TimerState.Running r at hr
    rw [hr]
    rcases r with ⟨due⟩
    simp
  rw [heq] at h
  exact h

/-- Witness for C8: clock goes backward (slept at 100, woke at 40); a running
timer due at 5 with now 0 is untouched and not reported elapsed. -/
theorem wake_clock_backward_spec_witness :
    sleep_duration_on_wake 100 40 = 0 ∧
    ((1 : Nat), runningT 5) ∈ (awaken [(1, runningT 5)]
        (sleep_duration_on_wake 100 40) 0).1 ∧
    (1 : Nat) ∉ (awaken [((1 : Nat), runningT 5)]
        (sleep_duration_on_wake 100 40) 0).2 := by
  have h := wake_clock_backward_spec 100 40 [(1, runningT 5)] 0
    (by decide) (by decide)
  have h2 := (h.2 1 (runningT 5) (by decide)).2.2 ⟨5⟩ rfl (by decide)
  exact ⟨h.1, h2.1, h2.2⟩

/-- C9: the id search of `Timers::first_vacant_entry` over candidates
1, 2, 3, … always finds a vacant id (so the terminal `.unwrap()` never
panics, and the search terminates), and the id found is positive, not a key,
and at most `n + 1` for a registry of `n` entries, i.e. at most `n + 1`
candidates are examined. -/
theorem first_vacant_entry_spec (m : Timers) :
    0 < first_vacant_entry m ∧
    first_vacant_entry m ∉ keys m ∧
    first_vacant_entry m ≤ m.length + 1 ∧
    (∀ j, 0 < j → j < first_vacant_entry m → j ∈ keys m) :=
  ⟨first_vacant_entry_pos m, first_vacant_entry_not_mem m,
   first_vacant_entry_le m,
   fun _ h0 hlt => mem_keys_of_lt_first_vacant h0 hlt⟩

/-- Witness for C9 on a two-entry registry with keys 1 and 2: the id found
(3) is fresh, within the `n + 1` bound, and every smaller positive id is
taken. -/
theorem first_vacant_entry_spec_witness :
    first_vacant_entry [((1 : Nat), runningT 5), ((2 : Nat), pausedT 4)]
        ∉ keys [((1 : Nat), runningT 5), ((2 : Nat), pausedT 4)] ∧
    first_vacant_entry [((1 : Nat), runningT 5), ((2 : Nat), pausedT 4)] ≤ 3 ∧
    (1 : Nat) ∈ keys [((1 : Nat), runningT 5), ((2 : Nat), pausedT 4)] := by
  have h := first_vacant_entry_spec [(1, runningT 5), (2, pausedT 4)]
  have hfv : first_vacant_entry [((1 : Nat), runningT 5), ((2 : Nat), pausedT 4)]
      = 3 :=
    first_vacant_entry_eq (n := 2) (by decide) (by decide)
  exact ⟨h.2.1, h.2.2.1, h.2.2.2 1 (by decide) (by rw [hfv]; decide)⟩

/-- C10: `again` answers `NonePreviouslyStarted` exactly when no timer has
been started since the daemon began (`last_started` is `none`), leaving the
context unchanged; otherwise it starts a fresh timer — smallest free id,
Running, due at `now` plus the most recently started duration (via the
spec-modelled `Timer.new_running`) — and answers `Ok` with that id and that
duration (as milliseconds, the wire unit of `AgainResponse`), leaving
`last_started` unchanged. -/
theorem again_spec (ctx : DaemonCtx) (now : Int) :
    ((again ctx now).1 = .NonePreviouslyStarted ↔ ctx.last_started = none) ∧
    (ctx.last_started = none → (again ctx now).2 = ctx) ∧
    (∀ d, ctx.last_started = some d →
      (again ctx now).1 = .Ok (first_vacant_entry ctx.timers) (asMillis d) ∧
      (again ctx now).2.timers
        = (first_vacant_entry ctx.timers, Timer.new_running d now) :: ctx.timers ∧
      lookup (again ctx now).2.timers (first_vacant_entry ctx.timers)
        = some { state := .Running ⟨now + (d : Int)⟩, initial_duration := d } ∧
      first_vacant_entry ctx.timers ∉ keys ctx.timers ∧
      0 < first_vacant_entry ctx.timers ∧
      (∀ j, 0 < j → j < first_vacant_entry ctx.timers → j ∈ keys ctx.timers) ∧
      (again ctx now).2.last_started = ctx.last_started) := by
  rcases hls : ctx.last_started with _ | d0
  · have hred : again ctx now = (.NonePreviouslyStarted, ctx) := by
      simp [again, hls]
    rw [hred]
    simp
  · have hred : again ctx now
        = (.Ok (first_vacant_entry ctx.timers) (asMillis d0),
           { ctx with timers := (first_vacant_entry ctx.timers,
               Timer.new_running d0 now) :: ctx.timers }) := by
      simp [again, hls, _start_timer]
    rw [hred]
    refine ⟨by simp, by simp, ?_⟩
    intro d hd
    have hdd : d0 = d := Option.some.inj hd
    subst hdd
    refine ⟨rfl, rfl, ?_, first_vacant_entry_not_mem _,
      first_vacant_entry_pos _,
      fun j h0 hlt => mem_keys_of_lt_first_vacant h0 hlt, by rw [hls]⟩
    show lookup ((first_vacant_entry ctx.timers, Timer.new_running d0 now)
        :: ctx.timers) (first_vacant_entry ctx.timers) = _
    rw [lookup_cons, if_pos rfl]
    rfl

/-- Witness for C10: on an empty registry with most recent duration
5000000 ns, `again` answers `Ok` with id 1 and 5 ms, and `last_started`
stays `some 5000000`. -/
theorem again_spec_witness :
    (again ⟨[], some 5000000⟩ 0).1 = .Ok 1 5 ∧
    (again ⟨[], some 5000000⟩ 0).2.last_started = some 5000000 := by
  have h := again_spec ⟨[], some 5000000⟩ 0
  have h2 := h.2.2 5000000 rfl
  have hfv : first_vacant_entry ([] : Timers) = 1 :=
    first_vacant_entry_eq (n := 0) (by decide) (by decide)
  constructor
  · rw [h2.1, hfv]
    decide
  · exact h2.2.2.2.2.2.2

end Sand
